import Mathlib

/-!
Verification of the input-parsing and normalization layer of the
snackmoney CLI: amount parsing, platform/receiver validation, batch
descriptor parsing, network/credential resolution, the natural-language
fallback extractor, and campaign validation.

JavaScript numbers are idealized as exact rationals together with the
three non-finite values NaN, +Infinity and -Infinity; `parseFloat` of a
decimal literal is exact in this model.
-/

set_option maxRecDepth 4096

deriving instance DecidableEq for Except

/-- Characters treated as whitespace by JavaScript `trim`, `parseFloat`
and the `\s` regex class (WhiteSpace plus LineTerminator). -/
def isJsSpace (c : Char) : Bool :=
  c.toNat = 9 ∨ c.toNat = 10 ∨ c.toNat = 11 ∨ c.toNat = 12 ∨ c.toNat = 13 ∨
  c.toNat = 32 ∨ c.toNat = 160 ∨ c.toNat = 0x1680 ∨
  (0x2000 ≤ c.toNat ∧ c.toNat ≤ 0x200a) ∨
  c.toNat = 0x2028 ∨ c.toNat = 0x2029 ∨ c.toNat = 0x202f ∨
  c.toNat = 0x205f ∨ c.toNat = 0x3000 ∨ c.toNat = 0xfeff

/-- The regex class `\d`. -/
def isDigitChar (c : Char) : Bool :=
  48 ≤ c.toNat ∧ c.toNat ≤ 57

/-- ASCII letters, the class `[a-zA-Z]`. -/
def isAsciiLetter (c : Char) : Bool :=
  (65 ≤ c.toNat ∧ c.toNat ≤ 90) ∨ (97 ≤ c.toNat ∧ c.toNat ≤ 122)

/-- The class `[a-zA-Z0-9]`. -/
def isAlnumChar (c : Char) : Bool :=
  isAsciiLetter c || isDigitChar c

/-- The regex class `\w`, i.e. `[A-Za-z0-9_]`. -/
def isWordChar (c : Char) : Bool :=
  isAlnumChar c || c = '_'

/-- Numeric value of a string of decimal digit characters, most
significant first (the value `parseInt(s, 10)` gives on an all-digit
string, and the integer part of `parseFloat`). -/
def digitsToNat (l : List Char) : Nat :=
  l.foldl (fun a c => 10 * a + (c.toNat - 48)) 0

/-- Case-sensitive literal prefix match; returns the rest of the input
on success. -/
def litCS : List Char → List Char → Option (List Char)
  | [], l => some l
  | _ :: _, [] => none
  | c :: w, d :: l => if c = d then litCS w l else none

/-- Case-insensitive (ASCII) literal prefix match; returns the rest of
the input on success.  Mirrors matching a fixed lowercase literal under
the regex `i` flag. -/
def litCI : List Char → List Char → Option (List Char)
  | [], l => some l
  | _ :: _, [] => none
  | c :: w, d :: l => if c.toLower = d.toLower then litCI w l else none

/-- JavaScript `String.prototype.trim` on a character list. -/
def trimL (l : List Char) : List Char :=
  (((l.dropWhile isJsSpace).reverse.dropWhile isJsSpace)).reverse

/-- JavaScript `String.prototype.split` with a single-character
separator. -/
def splitChar (sep : Char) : List Char → List (List Char)
  | [] => [[]]
  | c :: r =>
    if c = sep then [] :: splitChar sep r
    else
      match splitChar sep r with
      | [] => [[c]]
      | h :: t => (c :: h) :: t

/-- Split a pair at its last colon, as `pair.substring(0, lastIndexOf)`
and `pair.substring(lastIndexOf + 1)`; `none` when the list has no
colon (`lastIndexOf === -1`). -/
def splitLastColon (l : List Char) : Option (List Char × List Char) :=
  let rev := l.reverse
  let amtRev := rev.takeWhile (fun c => ¬ c = ':')
  match rev.dropWhile (fun c => ¬ c = ':') with
  | [] => none
  | _ :: recvRev => some (recvRev.reverse, amtRev.reverse)

/-- An exact rational written as an explicit (not necessarily reduced)
fraction `n / d`.  All fractions built by the parser have a positive
denominator; the represented value is `Q.toRat`. -/
structure Q where
  n : Int
  d : Nat
deriving DecidableEq, Repr

/-- The rational value of a fraction. -/
def Q.toRat (q : Q) : ℚ := (q.n : ℚ) / (q.d : ℚ)

/-- Negation of a fraction. -/
def Q.neg (q : Q) : Q := ⟨-q.n, q.d⟩

/-- A JavaScript number: an exact rational, or one of the three
non-finite values. -/
inductive JSNum where
  | num (q : Q)
  | nan
  | inf
  | negInf
deriving DecidableEq, Repr

/-- The rational value of a finite JavaScript number. -/
def JSNum.finiteVal : JSNum → Option ℚ
  | .num q => some q.toRat
  | _ => none

/-- JavaScript division of a number by 100 (`cents / 100`). -/
def jsDiv100 : JSNum → JSNum
  | .num q => .num ⟨q.n, q.d * 100⟩
  | .nan => .nan
  | .inf => .inf
  | .negInf => .negInf

/-- Exponent part of a JavaScript numeric literal: `e`/`E`, optional
sign, digits.  Per longest-valid-prefix semantics a bare `e` with no
digits contributes no exponent. -/
def parseExp (l : List Char) : Int :=
  match l with
  | c :: t =>
    if c = 'e' ∨ c = 'E' then
      let (neg, u) :=
        match t with
        | '-' :: u => (true, u)
        | '+' :: u => (false, u)
        | _ => (false, t)
      let ds := u.takeWhile isDigitChar
      if ds.isEmpty then 0
      else if neg then -(digitsToNat ds : Int) else (digitsToNat ds : Int)
    else 0
  | [] => 0

/-- Unsigned decimal part of `parseFloat`: `digits [. digits] [exp]`,
taking the longest valid prefix; `none` when no digit is found before
the exponent position (the NaN case).  The value
`(ip + fp / 10 ^ |fp|) * 10 ^ e` is returned as an explicit fraction. -/
def parseDec (l : List Char) : Option Q :=
  let ip := l.takeWhile isDigitChar
  let r1 := l.dropWhile isDigitChar
  let fp :=
    match r1 with
    | '.' :: t => t.takeWhile isDigitChar
    | _ => []
  let r2 :=
    match r1 with
    | '.' :: t => t.dropWhile isDigitChar
    | _ => r1
  if ip.isEmpty ∧ fp.isEmpty then none
  else
    let k := fp.length
    let n0 : Nat := digitsToNat ip * 10 ^ k + digitsToNat fp
    let e := parseExp r2
    if 0 ≤ e then some ⟨(n0 * 10 ^ e.toNat : ℕ), 10 ^ k⟩
    else some ⟨(n0 : ℕ), 10 ^ k * 10 ^ (-e).toNat⟩

/-- JavaScript `parseFloat` on a character list: skip whitespace, read
an optional sign, accept the `Infinity` literal, otherwise read the
longest decimal-literal prefix; NaN when none exists. -/
def parseFloatL (l0 : List Char) : JSNum :=
  let l := l0.dropWhile isJsSpace
  let neg : Bool := l.head? = some '-'
  let r := if l.head? = some '-' ∨ l.head? = some '+' then l.tail else l
  match litCS "Infinity".data r with
  | some _ => if neg then .negInf else .inf
  | none =>
    match parseDec r with
    | none => .nan
    | some q => .num (if neg then q.neg else q)

/-- JavaScript `parseFloat` on a string. -/
def parseFloat (s : String) : JSNum :=
  parseFloatL s.data

example : parseFloat "0.5" = .num ⟨5, 10⟩ := by decide
example : parseFloat " -5" = .num ⟨-5, 1⟩ := by decide
example : parseFloat "Infinity" = .inf := by decide
example : parseFloat "-Infinity" = .negInf := by decide
example : parseFloat "abc" = .nan := by decide
example : parseFloat "1e2" = .num ⟨100, 1⟩ := by decide
example : parseFloat "+.5e1" = .num ⟨50, 10⟩ := by decide
example : parseFloat "5..3" = .num ⟨5, 1⟩ := by decide
example : parseFloat "0x10" = .num ⟨0, 1⟩ := by decide
example : parseFloat "1e" = .num ⟨1, 1⟩ := by decide
example : parseFloat "1e-2" = .num ⟨1, 100⟩ := by decide
example : Q.toRat ⟨5, 10⟩ = 1 / 2 := by norm_num [Q.toRat]

/-- Errors thrown by the parsing/validation layer of the payment entry
points.  Each constructor corresponds to one `throw new Error(...)`
site; payloads are the values interpolated into the message. -/
inductive PayError where
  | invalidCents (raw : String)
  | shellHazard (dollars : Nat)
  | invalidDollar (raw : String)
  | invalidAmount (raw : String)
  | invalidX (username : String)
  | invalidFarcaster (username : String)
  | invalidGitHub (username : String)
  | invalidEmail (email : String)
  | invalidWeb (domain : String)
  | unknownPlatform (raw : String)
  | invalidFormat (input : String)
  | missingAmount (pair : String)
  | missingPlatformField
  | missingPaymentsField
  | missingReceiverField
  | missingAmountField
deriving DecidableEq, Repr

/-- Test of `/^[a-zA-Z0-9_]{1,15}$/`. -/
def xUsernameOk (l : List Char) : Bool :=
  1 ≤ l.length ∧ l.length ≤ 15 ∧ l.all isWordChar

/-- Test of `/^[a-zA-Z0-9][a-zA-Z0-9_-]{0,15}$/`. -/
def farcasterUsernameOk (l : List Char) : Bool :=
  match l with
  | [] => false
  | c :: rest =>
    isAlnumChar c && rest.length ≤ 15 &&
      rest.all (fun d => isAlnumChar d || d = '_' || d = '-')

/-- Two consecutive hyphens, the test of `/--/`. -/
def hasDoubleHyphen : List Char → Bool
  | '-' :: '-' :: _ => true
  | _ :: t => hasDoubleHyphen t
  | [] => false

/-- Test of `/^[a-zA-Z0-9]([a-zA-Z0-9-]{0,37}[a-zA-Z0-9])?$/`. -/
def gitHubCoreOk (l : List Char) : Bool :=
  match l with
  | [] => false
  | c :: rest =>
    isAlnumChar c &&
      (rest.isEmpty ||
        (rest.length ≤ 38 &&
          rest.dropLast.all (fun d => isAlnumChar d || d = '-') &&
          (match rest.getLast? with
           | some d => isAlnumChar d
           | none => false)))

/-- Characters of the local part of the email regex,
`[a-zA-Z0-9._%+-]`. -/
def isEmailLocalChar (c : Char) : Bool :=
  isAlnumChar c || c = '.' || c = '_' || c = '%' || c = '+' || c = '-'

/-- Characters of the domain part of the email regex, `[a-zA-Z0-9.-]`. -/
def isEmailDomainChar (c : Char) : Bool :=
  isAlnumChar c || c = '.' || c = '-'

/-- Test of `/^[a-zA-Z0-9._%+-]+@[a-zA-Z0-9.-]+\.[a-zA-Z]{2,}$/`.  The
end-anchored `[a-zA-Z]{2,}` forces the split point to the last dot of
the part after the first `@`, so the backtracking regex is equivalent
to this deterministic check. -/
def emailOk (l : List Char) : Bool :=
  let localPart := l.takeWhile (fun c => ¬ c = '@')
  match l.dropWhile (fun c => ¬ c = '@') with
  | [] => false
  | _ :: rest =>
    let tldRev := rest.reverse.takeWhile (fun c => ¬ c = '.')
    match rest.reverse.dropWhile (fun c => ¬ c = '.') with
    | [] => false
    | _ :: domRev =>
      (¬ localPart.isEmpty) && localPart.all isEmailLocalChar &&
        (¬ domRev.isEmpty) && domRev.all isEmailDomainChar &&
        2 ≤ tldRev.length && tldRev.all isAsciiLetter

/-- One domain label, `[a-zA-Z0-9]([a-zA-Z0-9-]{0,61}[a-zA-Z0-9])?`. -/
def domainLabelOk (l : List Char) : Bool :=
  match l with
  | [] => false
  | c :: rest =>
    isAlnumChar c &&
      (rest.isEmpty ||
        (rest.length ≤ 62 &&
          rest.dropLast.all (fun d => isAlnumChar d || d = '-') &&
          (match rest.getLast? with
           | some d => isAlnumChar d
           | none => false)))

/-- Test of `/^([a-zA-Z0-9]([a-zA-Z0-9-]{0,61}[a-zA-Z0-9])?\.)+[a-zA-Z]{2,}$/`.
Dots separate non-empty dot-free labels, so the repeated group splits
the input exactly at the dots. -/
def webDomainOk (l : List Char) : Bool :=
  let parts := splitChar '.' l
  2 ≤ parts.length && parts.dropLast.all domainLabelOk &&
    (match parts.getLast? with
     | some t => 2 ≤ t.length && t.all isAsciiLetter
     | none => false)

/-- The `validateXUsername` function. -/
def validateXUsername (username : String) : Except PayError Unit :=
  if xUsernameOk username.data then .ok () else .error (.invalidX username)

/-- The `validateFarcasterUsername` function. -/
def validateFarcasterUsername (username : String) : Except PayError Unit :=
  if farcasterUsernameOk username.data then .ok ()
  else .error (.invalidFarcaster username)

/-- The `validateGitHubUsername` function. -/
def validateGitHubUsername (username : String) : Except PayError Unit :=
  if gitHubCoreOk username.data ∧ ¬ hasDoubleHyphen username.data then .ok ()
  else .error (.invalidGitHub username)

/-- The `validateEmail` function. -/
def validateEmail (email : String) : Except PayError Unit :=
  if emailOk email.data then .ok () else .error (.invalidEmail email)

/-- The `validateWebDomain` function. -/
def validateWebDomain (domain : String) : Except PayError Unit :=
  if webDomainOk domain.data then .ok () else .error (.invalidWeb domain)

/-- The `validateReceiver` function: a switch on the platform with no
default case, so any platform other than the five canonical ones
succeeds without checking anything. -/
def validateReceiver (platform receiver : String) : Except PayError Unit :=
  if platform = "x" then validateXUsername receiver
  else if platform = "farcaster" then validateFarcasterUsername receiver
  else if platform = "github" then validateGitHubUsername receiver
  else if platform = "email" then validateEmail receiver
  else if platform = "web" then validateWebDomain receiver
  else .ok ()

/-- ASCII lowercasing, JavaScript `toLowerCase` on the inputs the CLI
deals with. -/
def lowerStr (s : String) : String :=
  ⟨s.data.map Char.toLower⟩

/-- The `normalizePlatform` function: the fixed alias map keyed on the
lowercased token. -/
def normalizePlatform (platform : String) : Except PayError String :=
  let lower := lowerStr platform
  if lower = "x" ∨ lower = "x.com" ∨ lower = "twitter" ∨ lower = "twitter.com" then
    .ok "x"
  else if lower = "farcaster" ∨ lower = "farcaster.xyz" then .ok "farcaster"
  else if lower = "github" ∨ lower = "github.com" then .ok "github"
  else if lower = "email" then .ok "email"
  else if lower = "web" then .ok "web"
  else .error (.unknownPlatform platform)

namespace Send

/-- The `parseAmount` of the send entry point, on a character list.
Cents notation, then dollar notation with the shell-positional-parameter
hazard check (`/^\d+$/` on the part after `$`), then plain decimal. -/
def parseAmountL (l : List Char) : Except PayError JSNum :=
  let raw : String := ⟨l⟩
  let trimmed := trimL l
  if trimmed.getLast? = some '¢' then
    let cents := parseFloatL trimmed.dropLast
    if cents = .nan then .error (.invalidCents raw) else .ok (jsDiv100 cents)
  else if trimmed.head? = some '$' then
    let dollarPart := trimmed.tail
    if (¬ dollarPart.isEmpty) && dollarPart.all isDigitChar then
      .error (.shellHazard (digitsToNat dollarPart))
    else
      let dollars := parseFloatL dollarPart
      if dollars = .nan then .error (.invalidDollar raw) else .ok dollars
  else
    let amount := parseFloatL trimmed
    if amount = .nan then .error (.invalidAmount raw) else .ok amount

/-- The send entry point's `parseAmount` on a string. -/
def parseAmount (amountStr : String) : Except PayError JSNum :=
  parseAmountL amountStr.data

end Send

/-- A JSON payment amount: a number or a string (the `string | number`
input type of the batch `parseAmount`). -/
inductive AmountField where
  | num (q : Q)
  | str (s : String)
deriving DecidableEq, Repr

namespace Batch

/-- The `parseAmount` of the batch entry point on a string: identical
to the send variant except that the dollar branch has no shell-hazard
check. -/
def parseAmountL (l : List Char) : Except PayError JSNum :=
  let raw : String := ⟨l⟩
  let trimmed := trimL l
  if trimmed.getLast? = some '¢' then
    let cents := parseFloatL trimmed.dropLast
    if cents = .nan then .error (.invalidCents raw) else .ok (jsDiv100 cents)
  else if trimmed.head? = some '$' then
    let dollars := parseFloatL trimmed.tail
    if dollars = .nan then .error (.invalidDollar raw) else .ok dollars
  else
    let amount := parseFloatL trimmed
    if amount = .nan then .error (.invalidAmount raw) else .ok amount

/-- The batch entry point's `parseAmount`: an already numeric value
passes through unchanged, a string is parsed. -/
def parseAmount : AmountField → Except PayError JSNum
  | .num q => .ok (.num q)
  | .str s => parseAmountL s.data

end Batch

example : Send.parseAmount "5¢" = .ok (.num ⟨5, 100⟩) := by decide
example : Send.parseAmount "$1" = .error (.shellHazard 1) := by decide
example : Send.parseAmount "$0.5" = .ok (.num ⟨5, 10⟩) := by decide
example : Send.parseAmount "-5" = .ok (.num ⟨-5, 1⟩) := by decide
example : Send.parseAmount "Infinity" = .ok .inf := by decide
example : Send.parseAmount "abc" = .error (.invalidAmount "abc") := by decide
example : Send.parseAmount " 0.5 " = .ok (.num ⟨5, 10⟩) := by decide
example : Batch.parseAmount (.str "$1") = .ok (.num ⟨1, 1⟩) := by decide
example : validateReceiver "x" "alice" = .ok () := by decide
example : validateReceiver "x" "toolongusername1234" =
    .error (.invalidX "toolongusername1234") := by decide
example : validateReceiver "discord" "???" = .ok () := by decide
example : validateReceiver "email" "a@b.co" = .ok () := by decide
example : validateReceiver "email" "a@b@c.co" =
    .error (.invalidEmail "a@b@c.co") := by decide
example : validateReceiver "web" "snack.money" = .ok () := by decide
example : validateReceiver "web" "snack" = .error (.invalidWeb "snack") := by decide
example : validateReceiver "github" "a--b" = .error (.invalidGitHub "a--b") := by decide
example : validateReceiver "github" "0xsnackbaker" = .ok () := by decide
example : validateReceiver "farcaster" "-a" = .error (.invalidFarcaster "-a") := by decide
example : normalizePlatform "X.COM" = .ok "x" := by decide
example : normalizePlatform "twitter" = .ok "x" := by decide
example : normalizePlatform "farcaster.xyz" = .ok "farcaster" := by decide
example : normalizePlatform "reddit" = .error (.unknownPlatform "reddit") := by decide

/-- A batch of payments on one platform, the `{ platform, payments }`
result shared by `parseCommaSeparated` and `parseJSONPayments`. -/
structure BatchDescriptor where
  platform : String
  payments : List (String × JSNum)
deriving DecidableEq, Repr

namespace Batch

/-- The `parseCommaSeparated` function: split at the first slash,
normalize the platform, split the remainder on commas, split each pair
at its last colon, validate each receiver and parse each amount. -/
def parseCommaSeparated (input : String) : Except PayError BatchDescriptor := do
  let l := input.data
  let platformStr := l.takeWhile (fun c => ¬ c = '/')
  match l.dropWhile (fun c => ¬ c = '/') with
  | [] => .error (.invalidFormat input)
  | _ :: receiversStr =>
    let platform ← normalizePlatform ⟨platformStr⟩
    let payments ← (splitChar ',' receiversStr).mapM (fun pair => do
      match splitLastColon pair with
      | none => Except.error (.missingAmount ⟨pair⟩)
      | some (receiver, amountStr) => do
        let _ ← validateReceiver platform ⟨receiver⟩
        let amount ← Batch.parseAmountL amountStr
        pure ((⟨receiver⟩ : String), amount))
    pure ⟨platform, payments⟩

/-- One record of the `payments` array of the JSON batch shape, with
optional fields as they arrive from `JSON.parse`. -/
structure RawPayment where
  receiver : Option String
  amount : Option AmountField
deriving DecidableEq, Repr

/-- The JSON batch object shape: an optional `platform` string and an
optional `payments` array. -/
structure RawBatch where
  platform : Option String
  payments : Option (List RawPayment)
deriving DecidableEq, Repr

/-- The `parseJSONPayments` function.  `!data.platform` is a JavaScript
truthiness test, so a missing or empty platform fails; a missing
`payments` array fails; each record needs a truthy `receiver` and a
non-`undefined` `amount`. -/
def parseJSONPayments (data : RawBatch) : Except PayError BatchDescriptor := do
  match data.platform with
  | none => .error .missingPlatformField
  | some platformRaw =>
    if platformRaw.length = 0 then .error .missingPlatformField
    else
      match data.payments with
      | none => .error .missingPaymentsField
      | some records => do
        let platform ← normalizePlatform platformRaw
        let payments ← records.mapM (fun payment => do
          match payment.receiver with
          | none => Except.error .missingReceiverField
          | some receiver =>
            if receiver.length = 0 then Except.error .missingReceiverField
            else
              match payment.amount with
              | none => Except.error .missingAmountField
              | some amount => do
                let _ ← validateReceiver platform receiver
                let q ← Batch.parseAmount amount
                pure (receiver, q))
        pure ⟨platform, payments⟩

end Batch

example : Batch.parseCommaSeparated "x/alice:5¢,bob:$0.5" =
    .ok ⟨"x", [("alice", .num ⟨5, 100⟩), ("bob", .num ⟨5, 10⟩)]⟩ := by decide
example : Batch.parseJSONPayments
      ⟨some "x", some [⟨some "alice", some (.str "5¢")⟩, ⟨some "bob", some (.str "$0.5")⟩]⟩ =
    .ok ⟨"x", [("alice", .num ⟨5, 100⟩), ("bob", .num ⟨5, 10⟩)]⟩ := by decide
example : Batch.parseCommaSeparated "nopslash" =
    .error (.invalidFormat "nopslash") := by decide
example : Batch.parseCommaSeparated "x/alice" =
    .error (.missingAmount "alice") := by decide

/-- The blockchain network resolved for a CLI invocation. -/
inductive Network where
  | base
  | solana
deriving DecidableEq, Repr

/-- Failures of the network/credential resolution block; each
constructor is one `console.error` plus `process.exit(1)` site. -/
inductive NetworkError where
  | invalidNetwork
  | missingSvmKey
  | missingEvmKey
  | ambiguousNetwork
  | noPrivateKeys
deriving DecidableEq, Repr

/-- The auto-detection else-branch of the network resolution block:
both keys is ambiguous, exactly one key selects its network, none
fails. -/
def autoDetectNetwork (hasEvmKey hasSvmKey : Bool) : Except NetworkError Network :=
  if hasEvmKey ∧ hasSvmKey then .error .ambiguousNetwork
  else if hasSvmKey then .ok .solana
  else if hasEvmKey then .ok .base
  else .error .noPrivateKeys

/-- The network resolution block shared by every payment entry point
(`if (args.network) { ... } else { ... }` computing `useSolana`).
`if (args.network)` is a JavaScript truthiness test, so an empty-string
flag value takes the auto-detect branch; a non-empty flag is lowercased
and checked against `["base", "solana"]` before the credential check. -/
def resolveNetwork (flag : Option String) (hasEvmKey hasSvmKey : Bool) :
    Except NetworkError Network :=
  match flag with
  | none => autoDetectNetwork hasEvmKey hasSvmKey
  | some f =>
    if f.length = 0 then autoDetectNetwork hasEvmKey hasSvmKey
    else
      let lower := lowerStr f
      if lower = "base" ∨ lower = "solana" then
        let useSolana := lower = "solana"
        if useSolana ∧ hasSvmKey = false then .error .missingSvmKey
        else if useSolana = false ∧ hasEvmKey = false then .error .missingEvmKey
        else .ok (if useSolana then .solana else .base)
      else .error .invalidNetwork

example : resolveNetwork none true true = .error .ambiguousNetwork := by decide
example : resolveNetwork (some "solana") false true = .ok .solana := by decide
example : resolveNetwork (some "base") false true = .error .missingEvmKey := by decide
example : resolveNetwork (some "BASE") true false = .ok .base := by decide
example : resolveNetwork (some "ethereum") false false = .error .invalidNetwork := by decide
example : resolveNetwork (some "") true false = .ok .base := by decide
example : resolveNetwork none false false = .error .noPrivateKeys := by decide

/-- A canonical payment instruction extracted by the AI agent. -/
structure PaymentInstruction where
  receiver : String
  amount : JSNum
  platform : String
  description : Option String := none
deriving DecidableEq, Repr

/-- Strip an optional leading `@`, the `@?` of the fallback patterns.
If the `@` is taken and the following `\w+` fails, retrying without it
also fails (`@` is not a word character), so no backtracking is
needed. -/
def skipAt : List Char → List Char
  | '@' :: r => r
  | l => l

/-- Match `\s+`, returning the rest; the following pattern pieces never
accept whitespace, so the greedy match needs no backtracking. -/
def spaces1 (l : List Char) : Option (List Char) :=
  let r := l.dropWhile isJsSpace
  if r.length = l.length then none else some r

/-- Match `\w+`, returning the capture and the rest; adjacent pattern
pieces never accept word characters, so the greedy match needs no
backtracking. -/
def word1 (l : List Char) : Option (List Char × List Char) :=
  let w := l.takeWhile isWordChar
  if w.isEmpty then none else some (w, l.dropWhile isWordChar)

/-- Match the amount group `(\d+\.?\d*)` of the fallback patterns.  The
group is always followed by `\s+`; any backtrack inside the group would
leave a digit or a dot as the next character, which `\s` rejects, so
the greedy reading is exact. -/
def matchAmountTok (l : List Char) : Option (List Char × List Char) :=
  match l.takeWhile isDigitChar, l.dropWhile isDigitChar with
  | [], _ => none
  | d1, '.' :: r2 => some (d1 ++ '.' :: r2.takeWhile isDigitChar, r2.dropWhile isDigitChar)
  | d1, r1 => some (d1, r1)

/-- Match the platform alternation `(x|farcaster|web|email|github)`
case-insensitively, returning the capture (from the original input) and
the rest.  No alternative is a prefix of another, so at most one can
match at a given position. -/
def matchPlatform (l : List Char) : Option (List Char × List Char) :=
  match litCI "x".data l with
  | some r => some (l.take 1, r)
  | none =>
    match litCI "farcaster".data l with
    | some r => some (l.take 9, r)
    | none =>
      match litCI "web".data l with
      | some r => some (l.take 3, r)
      | none =>
        match litCI "email".data l with
        | some r => some (l.take 5, r)
        | none =>
          match litCI "github".data l with
          | some r => some (l.take 6, r)
          | none => none

/-- Match the first fallback pattern
`/send\s+(\d+\.?\d*)\s+usdc\s+to\s+@?(\w+)\s+on\s+(x|farcaster|web|email|github)/i`
at the start of the input, building the instruction as the code does
(`receiver: match[2], amount: parseFloat(match[1]),
platform: match[3].toLowerCase()`). -/
def matchP1At (l : List Char) : Option (PaymentInstruction × List Char) := do
  let r ← litCI "send".data l
  let r ← spaces1 r
  let (amt, r) ← matchAmountTok r
  let r ← spaces1 r
  let r ← litCI "usdc".data r
  let r ← spaces1 r
  let r ← litCI "to".data r
  let r ← spaces1 r
  let (user, r) ← word1 (skipAt r)
  let r ← spaces1 r
  let r ← litCI "on".data r
  let r ← spaces1 r
  let (plat, r) ← matchPlatform r
  pure (⟨⟨user⟩, parseFloatL amt, lowerStr ⟨plat⟩, none⟩, r)

/-- Match the second fallback pattern
`/pay\s+@?(\w+)\s+(\d+\.?\d*)\s+usdc\s+on\s+(x|farcaster|web|email|github)/i`
at the start of the input (`receiver: match[1], amount:
parseFloat(match[2]), platform: match[3].toLowerCase()`). -/
def matchP2At (l : List Char) : Option (PaymentInstruction × List Char) := do
  let r ← litCI "pay".data l
  let r ← spaces1 r
  let (user, r) ← word1 (skipAt r)
  let r ← spaces1 r
  let (amt, r) ← matchAmountTok r
  let r ← spaces1 r
  let r ← litCI "usdc".data r
  let r ← spaces1 r
  let r ← litCI "on".data r
  let r ← spaces1 r
  let (plat, r) ← matchPlatform r
  pure (⟨⟨user⟩, parseFloatL amt, lowerStr ⟨plat⟩, none⟩, r)

/-- Match the third fallback pattern
`/@?(\w+)\s+on\s+(x|farcaster|web|email|github)\s+(\d+\.?\d*)\s+usdc/i`
at the start of the input (`receiver: match[1], amount:
parseFloat(match[3]), platform: match[2].toLowerCase()`). -/
def matchP3At (l : List Char) : Option (PaymentInstruction × List Char) := do
  let (user, r) ← word1 (skipAt l)
  let r ← spaces1 r
  let r ← litCI "on".data r
  let r ← spaces1 r
  let (plat, r) ← matchPlatform r
  let r ← spaces1 r
  let (amt, r) ← matchAmountTok r
  let r ← spaces1 r
  let r ← litCI "usdc".data r
  pure (⟨⟨user⟩, parseFloatL amt, lowerStr ⟨plat⟩, none⟩, r)

/-- Global `exec` loop for one pattern: find the leftmost match at or
after the current position, emit it, continue after its end.  Fuel is
the input length; every step either skips one character or consumes a
non-empty match. -/
def scanAux (matchAt : List Char → Option (PaymentInstruction × List Char)) :
    Nat → List Char → List PaymentInstruction
  | 0, _ => []
  | _ + 1, [] => []
  | fuel + 1, l =>
    match matchAt l with
    | some (inst, r) => inst :: scanAux matchAt fuel r
    | none => scanAux matchAt fuel l.tail

/-- All non-overlapping matches of one pattern over the input. -/
def scanMatches (matchAt : List Char → Option (PaymentInstruction × List Char))
    (l : List Char) : List PaymentInstruction :=
  scanAux matchAt (l.length + 1) l

/-- The `fallbackParser` function: collect every non-overlapping match
of each of the three regex templates, in template order. -/
def fallbackParser (prompt : String) : List PaymentInstruction :=
  scanMatches matchP1At prompt.data ++
    scanMatches matchP2At prompt.data ++
    scanMatches matchP3At prompt.data

/-- The `content.match(/\[[\s\S]*\]/)` step of `parseAIResponse`: the
leftmost `[` that is followed by some `]`, greedily extended to the last
`]` of the input. -/
def extractBracketed (l : List Char) : Option (List Char) :=
  match l.dropWhile (fun c => ¬ c = '[') with
  | [] => none
  | open_ :: rest =>
    match rest.reverse.dropWhile (fun c => ¬ c = ']') with
    | [] => none
    | closeRev => some (open_ :: closeRev.reverse)

/-- The `parseAIResponse` function, with `JSON.parse` abstracted as
`jsonDecode` (`none` models a thrown `SyntaxError`, which propagates to
the caller).  When the model response contains no bracketed array
candidate, the regex fallback is applied to the response text itself. -/
def parseAIResponse (jsonDecode : String → Option (List PaymentInstruction))
    (content : String) : Except String (List PaymentInstruction) :=
  match extractBracketed content.data with
  | none => .ok (fallbackParser content)
  | some arr =>
    match jsonDecode ⟨arr⟩ with
    | none => .error "JSON parse failed"
    | some instructions => .ok instructions

/-- The `parsePaymentRequest` function: OpenAI first, then Claude, then
the regex fallback on the prompt.  The external model call is
abstracted as `model`. -/
def parsePaymentRequest (hasOpenaiKey hasAnthropicKey : Bool)
    (model : String → String)
    (jsonDecode : String → Option (List PaymentInstruction))
    (prompt : String) : Except String (List PaymentInstruction) :=
  if hasOpenaiKey then parseAIResponse jsonDecode (model prompt)
  else if hasAnthropicKey then parseAIResponse jsonDecode (model prompt)
  else .ok (fallbackParser prompt)

example : fallbackParser "Send 0.5 USDC to @alice on farcaster" =
    [⟨"alice", .num ⟨5, 10⟩, "farcaster", none⟩] := by decide
example : fallbackParser "Pay @mesut 0.5 USDC on Farcaster" =
    [⟨"mesut", .num ⟨5, 10⟩, "farcaster", none⟩] := by decide
example : fallbackParser "hello there" = [] := by decide
example : fallbackParser "send 1 usdc to @bob on x" =
    [⟨"bob", .num ⟨1, 1⟩, "x", none⟩] := by decide
example : extractBracketed "no array here".data = none := by decide
example : extractBracketed "x [1, 2] y".data = some "[1, 2]".data := by decide
example : extractBracketed "] [ ]".data = some "[ ]".data := by decide
example : extractBracketed "][".data = none := by decide

/-- A JSON field value as it reaches the campaign validator: absent
(also covering `null`, which every check in the function treats the
same way), a string, a number, or a boolean. -/
inductive JField where
  | absent
  | jstr (s : String)
  | jnum (q : ℚ)
  | jbool (b : Bool)
deriving DecidableEq

/-- JavaScript truthiness of a field value. -/
def truthy : JField → Bool
  | .absent => false
  | .jstr s => ¬ s.length = 0
  | .jnum q => ¬ q = 0
  | .jbool b => b

/-- The sponsor sub-object of a campaign request. -/
structure RawSponsor where
  name : JField
  handle : JField
  url : JField
deriving DecidableEq

/-- A raw campaign-creation object as it reaches
`validateCampaignData`.  A falsy or non-object `sponsor` behaves like
`none` (every access on it yields `undefined`). -/
structure RawCampaign where
  platform : JField
  name : JField
  description : JField
  totalCookies : JField
  sponsor : Option RawSponsor
deriving DecidableEq

/-- Field-level violations collected by `validateCampaignData`; each
constructor is one `errors.push(...)` site. -/
inductive CampErr where
  | platformRequired
  | platformInvalid (v : JField)
  | nameRequired
  | nameNotString
  | nameTooShort
  | nameTooLong
  | descriptionRequired
  | descriptionNotString
  | descriptionTooShort
  | descriptionTooLong
  | cookiesRequired
  | cookiesNotNumber
  | cookiesNotInteger
  | cookiesTooFew
  | cookiesTooMany
  | sponsorRequired
  | sponsorNameRequired
  | sponsorNameNotString
  | sponsorNameTooShort
  | sponsorNameTooLong
  | sponsorHandleRequired
  | sponsorHandleNotString
  | sponsorHandleTooShort
  | sponsorHandleTooLong
  | sponsorUrlNotString
  | sponsorUrlInvalid (url : String)
deriving DecidableEq

/-- The platform checks: truthiness, then membership in
`["x", "farcaster"]` (an `includes` with `===`, false for any
non-string). -/
def platformErrs : JField → List CampErr
  | .absent => [.platformRequired]
  | .jstr s =>
    if s.length = 0 then [.platformRequired]
    else if s = "x" ∨ s = "farcaster" then []
    else [.platformInvalid (.jstr s)]
  | .jnum q => if truthy (.jnum q) then [.platformInvalid (.jnum q)] else [.platformRequired]
  | .jbool b => if b then [.platformInvalid (.jbool b)] else [.platformRequired]

/-- The name checks: truthiness, string type, length in [3, 100]. -/
def nameErrs : JField → List CampErr
  | .absent => [.nameRequired]
  | .jstr s =>
    if s.length = 0 then [.nameRequired]
    else if s.length < 3 then [.nameTooShort]
    else if 100 < s.length then [.nameTooLong]
    else []
  | .jnum q => if truthy (.jnum q) then [.nameNotString] else [.nameRequired]
  | .jbool b => if b then [.nameNotString] else [.nameRequired]

/-- The description checks: truthiness, string type, length in
[10, 500]. -/
def descriptionErrs : JField → List CampErr
  | .absent => [.descriptionRequired]
  | .jstr s =>
    if s.length = 0 then [.descriptionRequired]
    else if s.length < 10 then [.descriptionTooShort]
    else if 500 < s.length then [.descriptionTooLong]
    else []
  | .jnum q => if truthy (.jnum q) then [.descriptionNotString] else [.descriptionRequired]
  | .jbool b => if b then [.descriptionNotString] else [.descriptionRequired]

/-- The totalCookies checks: presence (`=== undefined || === null`,
not truthiness), number type, `Number.isInteger`, bounds [3, 10]. -/
def cookieErrs : JField → List CampErr
  | .absent => [.cookiesRequired]
  | .jstr _ => [.cookiesNotNumber]
  | .jbool _ => [.cookiesNotNumber]
  | .jnum q =>
    if ¬ q.den = 1 then [.cookiesNotInteger]
    else if q < 3 then [.cookiesTooFew]
    else if 10 < q then [.cookiesTooMany]
    else []

/-- The sponsor.name checks: truthiness, string type, length in
[1, 100] (the lower bound is unreachable past the truthiness check but
appears in the code). -/
def sponsorNameErrs : JField → List CampErr
  | .absent => [.sponsorNameRequired]
  | .jstr s =>
    if s.length = 0 then [.sponsorNameRequired]
    else if s.length < 1 then [.sponsorNameTooShort]
    else if 100 < s.length then [.sponsorNameTooLong]
    else []
  | .jnum q => if truthy (.jnum q) then [.sponsorNameNotString] else [.sponsorNameRequired]
  | .jbool b => if b then [.sponsorNameNotString] else [.sponsorNameRequired]

/-- The sponsor.handle checks: truthiness, string type, length in
[1, 50]. -/
def sponsorHandleErrs : JField → List CampErr
  | .absent => [.sponsorHandleRequired]
  | .jstr s =>
    if s.length = 0 then [.sponsorHandleRequired]
    else if s.length < 1 then [.sponsorHandleTooShort]
    else if 50 < s.length then [.sponsorHandleTooLong]
    else []
  | .jnum q => if truthy (.jnum q) then [.sponsorHandleNotString] else [.sponsorHandleRequired]
  | .jbool b => if b then [.sponsorHandleNotString] else [.sponsorHandleRequired]

/-- The sponsor.url checks: skipped when `undefined`/`null`, string
type, then `new URL(url)` abstracted as the predicate `urlOk`. -/
def sponsorUrlErrs (urlOk : String → Bool) : JField → List CampErr
  | .absent => []
  | .jstr s => if urlOk s then [] else [.sponsorUrlInvalid s]
  | .jnum _ => [.sponsorUrlNotString]
  | .jbool _ => [.sponsorUrlNotString]

/-- The sponsor checks: the sub-object must be present, then its three
fields are checked in order. -/
def sponsorErrs (urlOk : String → Bool) : Option RawSponsor → List CampErr
  | none => [.sponsorRequired]
  | some sp => sponsorNameErrs sp.name ++ sponsorHandleErrs sp.handle ++
      sponsorUrlErrs urlOk sp.url

/-- All violations collected by one run of `validateCampaignData`, in
push order. -/
def campaignErrors (urlOk : String → Bool) (data : RawCampaign) : List CampErr :=
  platformErrs data.platform ++ nameErrs data.name ++
    descriptionErrs data.description ++ cookieErrs data.totalCookies ++
    sponsorErrs urlOk data.sponsor

/-- The `validateCampaignData` function: collect every field-level
violation, throw them all as one aggregate error when any exist,
otherwise return the data unchanged. -/
def validateCampaignData (urlOk : String → Bool) (data : RawCampaign) :
    Except (List CampErr) RawCampaign :=
  if (campaignErrors urlOk data).isEmpty then .ok data
  else .error (campaignErrors urlOk data)

/-- Whether a run of the validator succeeded. -/
def exceptOk {ε α : Type} : Except ε α → Bool
  | .ok _ => true
  | .error _ => false

/-- Decimal digit characters of `N`, most significant first. -/
def natDigits (N : ℕ) : List Char :=
  if N = 0 then ['0'] else ((Nat.digits 10 N).map Nat.digitChar).reverse

/-- The `parseFloat` value computed in the branch of the send
`parseAmount` that handles the given token: after `¢` stripping for
cents tokens, after `$` stripping for dollar tokens, on the trimmed
token otherwise. -/
def sendBranchVal (l : List Char) : JSNum :=
  let trimmed := trimL l
  if trimmed.getLast? = some '¢' then parseFloatL trimmed.dropLast
  else if trimmed.head? = some '$' then parseFloatL trimmed.tail
  else parseFloatL trimmed

/-- Modelled from the spec (§4.6 NetworkSelector decision table),
amended at one point: an empty flag value is treated as no flag,
because the code tests the flag with JavaScript truthiness. -/
def networkDecisionTable (flag : Option String) (evm svm : Bool) :
    Except NetworkError Network :=
  let noFlag : Except NetworkError Network :=
    if evm ∧ svm then .error .ambiguousNetwork
    else if evm then .ok .base
    else if svm then .ok .solana
    else .error .noPrivateKeys
  match flag with
  | none => noFlag
  | some f =>
    if f.length = 0 then noFlag
    else if lowerStr f = "base" then
      if evm then .ok .base else .error .missingEvmKey
    else if lowerStr f = "solana" then
      if svm then .ok .solana else .error .missingSvmKey
    else .error .invalidNetwork

/-- Every field of the campaign object satisfies the bounds of §3 of
the spec: platform in {x, farcaster}, name 3–100 chars, description
10–500 chars, totalCookies an integer in [3, 10], sponsor name 1–100
chars, sponsor handle 1–50 chars, sponsor url absent or well-formed. -/
def ValidCampaign (urlOk : String → Bool) (d : RawCampaign) : Prop :=
  (d.platform = .jstr "x" ∨ d.platform = .jstr "farcaster") ∧
  (∃ s, d.name = .jstr s ∧ 3 ≤ s.length ∧ s.length ≤ 100) ∧
  (∃ s, d.description = .jstr s ∧ 10 ≤ s.length ∧ s.length ≤ 500) ∧
  (∃ q : ℚ, d.totalCookies = .jnum q ∧ q.den = 1 ∧ 3 ≤ q ∧ q ≤ 10) ∧
  (∃ sp, d.sponsor = some sp ∧
    (∃ s, sp.name = .jstr s ∧ 1 ≤ s.length ∧ s.length ≤ 100) ∧
    (∃ s, sp.handle = .jstr s ∧ 1 ≤ s.length ∧ s.length ≤ 50) ∧
    (sp.url = .absent ∨ ∃ s, sp.url = .jstr s ∧ urlOk s = true))

example :
    validateCampaignData (fun _ => false)
      ⟨.jstr "x", .jstr "ab", .jstr "cookies for everyone", .jnum 2,
        some ⟨.jstr "Acme", .jstr "acme", .absent⟩⟩ =
    .error [.nameTooShort, .cookiesTooFew] := by decide
example :
    validateCampaignData (fun _ => false)
      ⟨.jstr "x", .jstr "abc", .jstr "cookies for everyone", .jnum 5,
        some ⟨.jstr "Acme", .jstr "acme", .absent⟩⟩ =
    .ok ⟨.jstr "x", .jstr "abc", .jstr "cookies for everyone", .jnum 5,
        some ⟨.jstr "Acme", .jstr "acme", .absent⟩⟩ := by decide

lemma ne_of_toNat_ne {c d : Char} (h : ¬ c.toNat = d.toNat) : ¬ c = d :=
  fun he => h (by rw [he])

lemma isDigitChar_spec {c : Char} (h : isDigitChar c = true) :
    48 ≤ c.toNat ∧ c.toNat ≤ 57 := by
  simpa [isDigitChar] using h

lemma digit_not_space {c : Char} (h : isDigitChar c = true) : isJsSpace c = false := by
  obtain ⟨h1, h2⟩ := isDigitChar_spec h
  simp only [isJsSpace, decide_eq_false_iff_not]
  omega

lemma digit_toNat_ne {c : Char} (h : isDigitChar c = true) {n : ℕ}
    (hn : n < 48 ∨ 57 < n) : ¬ c.toNat = n := by
  obtain ⟨h1, h2⟩ := isDigitChar_spec h
  omega

lemma dropWhile_cons_false {p : Char → Bool} {c : Char} (t : List Char)
    (h : p c = false) : (c :: t).dropWhile p = c :: t := by
  simp [List.dropWhile_cons, h]

lemma dropWhile_all_false {p : Char → Bool} :
    ∀ (l : List Char), (∀ c ∈ l, p c = false) → l.dropWhile p = l
  | [], _ => rfl
  | c :: t, h => dropWhile_cons_false t (h c (by simp))

lemma takeWhile_all_true {p : Char → Bool} :
    ∀ (l : List Char), (∀ c ∈ l, p c = true) →
      l.takeWhile p = l ∧ l.dropWhile p = []
  | [], _ => ⟨rfl, rfl⟩
  | c :: t, h => by
    have ht := takeWhile_all_true t (fun x hx => h x (by simp [hx]))
    simp [List.takeWhile_cons, List.dropWhile_cons, h c (by simp), ht.1, ht.2]

lemma trimL_id (l : List Char) (h : ∀ c ∈ l, isJsSpace c = false) :
    trimL l = l := by
  unfold trimL
  rw [dropWhile_all_false l h]
  rw [dropWhile_all_false l.reverse (fun c hc => h c (List.mem_reverse.mp hc))]
  exact l.reverse_reverse

lemma mem_trimL {c : Char} {l : List Char} (h : c ∈ trimL l) : c ∈ l := by
  unfold trimL at h
  rw [List.mem_reverse] at h
  have h2 := (List.dropWhile_sublist (l := (l.dropWhile isJsSpace).reverse)
    (p := isJsSpace)).mem h
  rw [List.mem_reverse] at h2
  exact (List.dropWhile_sublist (l := l) (p := isJsSpace)).mem h2

lemma getLast?_append_right :
    ∀ (l1 : List Char) {l2 : List Char}, l2 ≠ [] →
      (l1 ++ l2).getLast? = l2.getLast?
  | [], _, _ => rfl
  | a :: t, l2, h => by
    have ih := getLast?_append_right t h
    cases ht : t ++ l2 with
    | nil =>
      cases t <;> simp_all
    | cons b u =>
      simp only [List.cons_append, ht, List.getLast?_cons_cons]
      rw [← ht, ih]

lemma exists_getLast? :
    ∀ (l : List Char), l ≠ [] → ∃ c, l.getLast? = some c ∧ c ∈ l
  | [c], _ => ⟨c, rfl, by simp⟩
  | c :: d :: t, _ => by
    obtain ⟨x, hx, hm⟩ := exists_getLast? (d :: t) (by simp)
    exact ⟨x, by simpa [List.getLast?_cons_cons] using hx, by simp [hm]⟩

lemma digitsToNat_append_singleton (xs : List Char) (c : Char) :
    digitsToNat (xs ++ [c]) = 10 * digitsToNat xs + (c.toNat - 48) := by
  simp [digitsToNat, List.foldl_append]

lemma digitChar_toNat {d : ℕ} (h : d < 10) : (Nat.digitChar d).toNat = 48 + d := by
  interval_cases d <;> decide

lemma isDigitChar_digitChar {d : ℕ} (h : d < 10) :
    isDigitChar (Nat.digitChar d) = true := by
  interval_cases d <;> decide

lemma digitsToNat_of_digits :
    ∀ (L : List ℕ), (∀ d ∈ L, d < 10) →
      digitsToNat ((L.map Nat.digitChar).reverse) = Nat.ofDigits 10 L
  | [], _ => rfl
  | d :: L, h => by
    have ih := digitsToNat_of_digits L (fun x hx => h x (by simp [hx]))
    simp only [List.map_cons, List.reverse_cons]
    rw [digitsToNat_append_singleton, ih, digitChar_toNat (h d (by simp)),
      Nat.ofDigits_cons]
    omega

lemma natDigits_spec (N : ℕ) :
    natDigits N ≠ [] ∧ (∀ c ∈ natDigits N, isDigitChar c = true) ∧
      digitsToNat (natDigits N) = N := by
  by_cases h : N = 0
  · subst h
    refine ⟨by decide, ?_, by decide⟩
    intro c hc
    rw [show natDigits 0 = ['0'] from by decide] at hc
    simp only [List.mem_singleton] at hc
    subst hc; decide
  · unfold natDigits
    rw [if_neg h]
    refine ⟨?_, ?_, ?_⟩
    · simp [Nat.digits_ne_nil_iff_ne_zero.mpr h]
    · intro c hc
      simp only [List.mem_reverse, List.mem_map] at hc
      obtain ⟨d, hd, rfl⟩ := hc
      exact isDigitChar_digitChar (Nat.digits_lt_base (by norm_num) hd)
    · rw [digitsToNat_of_digits _ (fun d hd => Nat.digits_lt_base (by norm_num) hd),
        Nat.ofDigits_digits]

lemma takeWhile_append_stop {p : Char → Bool} :
    ∀ (l1 : List Char) (c : Char) (t : List Char),
      (∀ x ∈ l1, p x = true) → p c = false →
      ((l1 ++ c :: t).takeWhile p = l1 ∧ (l1 ++ c :: t).dropWhile p = c :: t)
  | [], c, t, _, hc => by simp [List.takeWhile_cons, List.dropWhile_cons, hc]
  | a :: l1, c, t, h, hc => by
    have ih := takeWhile_append_stop l1 c t (fun x hx => h x (by simp [hx])) hc
    simp [List.takeWhile_cons, List.dropWhile_cons, h a (by simp), ih.1, ih.2]

lemma parseDec_all_digits (ds : List Char) (h0 : ds ≠ [])
    (h1 : ∀ c ∈ ds, isDigitChar c = true) :
    parseDec ds = some ⟨(digitsToNat ds : ℤ), 1⟩ := by
  have htake := takeWhile_all_true ds h1
  simp only [parseDec, htake.1, htake.2, parseExp]
  have hne : ¬ ds.isEmpty = true := by
    cases ds with
    | nil => exact absurd rfl h0
    | cons c t => simp
  simp [hne, digitsToNat]

lemma parseFloatL_all_digits (ds : List Char) (h0 : ds ≠ [])
    (h1 : ∀ c ∈ ds, isDigitChar c = true) :
    parseFloatL ds = .num ⟨(digitsToNat ds : ℤ), 1⟩ := by
  obtain ⟨c, t, rfl⟩ : ∃ c t, ds = c :: t := by
    cases ds with
    | nil => exact absurd rfl h0
    | cons c t => exact ⟨c, t, rfl⟩
  have hc := h1 c (by simp)
  have hspace : (c :: t).dropWhile isJsSpace = c :: t :=
    dropWhile_cons_false t (digit_not_space hc)
  have hminus : ¬ c = '-' := ne_of_toNat_ne (digit_toNat_ne hc (by decide))
  have hplus : ¬ c = '+' := ne_of_toNat_ne (digit_toNat_ne hc (by decide))
  have hI : ¬ ('I' = c) := fun he =>
    (digit_toNat_ne hc (n := 73) (by decide)) (by rw [← he]; rfl)
  have hinf : "Infinity".data = 'I' :: "nfinity".data := rfl
  simp [parseFloatL, hspace, hminus, hplus, hinf, litCS, hI,
    parseDec_all_digits (c :: t) (by simp) h1]

lemma parseDec_n_nonneg {l : List Char} {q : Q} (h : parseDec l = some q) :
    0 ≤ q.n := by
  simp only [parseDec] at h
  split at h
  · exact absurd h (by simp)
  · split at h <;>
    · simp only [Option.some.injEq] at h
      subst h
      positivity

lemma parseFloatL_no_minus {l : List Char} (h : '-' ∉ l) :
    parseFloatL l = .nan ∨ parseFloatL l = .inf ∨
      ∃ q, parseFloatL l = .num q ∧ 0 ≤ q.n := by
  have hsub : ∀ c ∈ l.dropWhile isJsSpace, c ∈ l :=
    fun c hc => (List.dropWhile_sublist (l := l) (p := isJsSpace)).mem hc
  have hminus : ¬ (l.dropWhile isJsSpace).head? = some '-' := by
    intro hh
    cases hl : l.dropWhile isJsSpace with
    | nil => rw [hl] at hh; exact absurd hh (by simp)
    | cons c t =>
      rw [hl] at hh
      simp only [List.head?_cons, Option.some.injEq] at hh
      exact h (hsub '-' (by rw [hl, ← hh]; simp))
  have hdec : (decide ((l.dropWhile isJsSpace).head? = some '-')) = false :=
    decide_eq_false hminus
  simp only [parseFloatL, hdec, hminus, Bool.false_eq_true, if_false, false_or]
  generalize (if (l.dropWhile isJsSpace).head? = some '+' then
      (l.dropWhile isJsSpace).tail else l.dropWhile isJsSpace) = r
  cases hlit : litCS "Infinity".data r with
  | some w => simp [hlit]
  | none =>
    cases hd : parseDec r with
    | none => simp [hlit, hd]
    | some q =>
      simp only [hlit, hd]
      exact Or.inr (Or.inr ⟨q, rfl, parseDec_n_nonneg hd⟩)

/-- Claim C10: for every platform string outside the five canonical
identities and every receiver string, `validateReceiver` succeeds
without performing any check — the switch has no default case, so
receiver syntax is only enforced for platforms that `normalizePlatform`
can produce. -/
theorem validateReceiver_vacuous_for_unknown_platform
    (platform receiver : String)
    (h : platform ∉ (["x", "farcaster", "github", "email", "web"] : List String)) :
    validateReceiver platform receiver = .ok () := by
  simp only [List.mem_cons, List.not_mem_nil, or_false, not_or] at h
  obtain ⟨h1, h2, h3, h4, h5⟩ := h
  simp [validateReceiver, h1, h2, h3, h4, h5]

/-- Witness for C10: a platform unknown to the normalizer with a
receiver that no platform rule would accept. -/
theorem validateReceiver_vacuous_witness :
    validateReceiver "discord" "not a valid handle anywhere" = .ok () :=
  validateReceiver_vacuous_for_unknown_platform
    "discord" "not a valid handle anywhere" (by decide)

/-- Counterexample to claim C1 as stated: the empty string is a flag
value other than base/solana, yet with an EVM key and no SVM key the
resolver auto-detects Base instead of failing with the invalid-network
error, because `if (args.network)` is a truthiness test. -/
theorem resolveNetwork_empty_flag_counterexample :
    ¬ lowerStr "" = "base" ∧ ¬ lowerStr "" = "solana" ∧
      resolveNetwork (some "") true false = .ok .base := by decide

/-- Claim C1, amended: network resolution follows the spec's decision
table for every flag value and credential combination, except that an
empty flag value is treated as if no flag were given. -/
theorem resolveNetwork_matches_decision_table :
    ∀ (flag : Option String) (hasEvmKey hasSvmKey : Bool),
      resolveNetwork flag hasEvmKey hasSvmKey =
        networkDecisionTable flag hasEvmKey hasSvmKey := by
  intro flag e s
  cases flag with
  | none => cases e <;> cases s <;> rfl
  | some f =>
    by_cases h0 : f.length = 0
    · simp only [resolveNetwork, networkDecisionTable, if_pos h0]
      cases e <;> cases s <;> rfl
    · by_cases hb : lowerStr f = "base"
      · have hs : ¬ lowerStr f = "solana" := by rw [hb]; decide
        cases e <;> cases s <;>
          simp [resolveNetwork, networkDecisionTable, autoDetectNetwork, h0, hb, hs]
      · by_cases hs : lowerStr f = "solana"
        · cases e <;> cases s <;>
            simp [resolveNetwork, networkDecisionTable, autoDetectNetwork, h0, hb, hs]
        · simp [resolveNetwork, networkDecisionTable, autoDetectNetwork, h0, hb, hs]

/-- Claim C4: the comma-separated batch form and the JSON batch form
produce the same `BatchDescriptor` on the corresponding inputs, namely
platform `x` with ordered payments alice ↦ 0.05 and bob ↦ 0.5. -/
theorem batch_comma_and_json_forms_agree :
    Batch.parseCommaSeparated "x/alice:5¢,bob:$0.5" =
      Batch.parseJSONPayments ⟨some "x",
        some [⟨some "alice", some (.str "5¢")⟩, ⟨some "bob", some (.str "$0.5")⟩]⟩ ∧
    Batch.parseCommaSeparated "x/alice:5¢,bob:$0.5" =
      .ok ⟨"x", [("alice", .num ⟨5, 100⟩), ("bob", .num ⟨5, 10⟩)]⟩ ∧
    Q.toRat ⟨5, 100⟩ = 1 / 20 ∧ Q.toRat ⟨5, 10⟩ = 1 / 2 := by
  refine ⟨by decide, by decide, ?_, ?_⟩ <;> norm_num [Q.toRat]

/-- Claim C9: with no language-model credential configured, the
extractor on the prompt `Send 0.5 USDC to @alice on farcaster` yields
exactly one instruction, receiver alice, amount 0.5, platform
farcaster. -/
theorem fallback_extractor_single_instruction
    (model : String → String)
    (jsonDecode : String → Option (List PaymentInstruction)) :
    parsePaymentRequest false false model jsonDecode
        "Send 0.5 USDC to @alice on farcaster" =
      .ok [⟨"alice", .num ⟨5, 10⟩, "farcaster", none⟩] ∧
    Q.toRat ⟨5, 10⟩ = 1 / 2 :=
  ⟨rfl, by norm_num [Q.toRat]⟩

/-- Counterexample to claim C8 as stated: on an array-free model
response the fallback templates are applied to the response text, not
to the original prompt — here the prompt alone matches a template, yet
the extractor returns no instruction. -/
theorem parseAIResponse_fallback_ignores_prompt :
    extractBracketed "i cannot parse that".data = none ∧
    parseAIResponse (fun _ => none) "i cannot parse that" = .ok [] ∧
    fallbackParser "send 1 usdc to @bob on x" =
      [⟨"bob", .num ⟨1, 1⟩, "x", none⟩] := by
  decide

/-- Claim C8, amended: whenever the model path is taken and the model
response contains no bracketed array candidate, the extractor falls
back to the three fixed regex templates applied to the model's response
text, collecting every non-overlapping match of every template. -/
theorem parseAIResponse_array_free_falls_back
    (jsonDecode : String → Option (List PaymentInstruction)) (content : String)
    (h : extractBracketed content.data = none) :
    parseAIResponse jsonDecode content = .ok (fallbackParser content) := by
  unfold parseAIResponse
  rw [h]

/-- Witness for the amended C8 at a concrete array-free response. -/
theorem parseAIResponse_array_free_witness :
    parseAIResponse (fun _ => none) "model replied in plain prose" =
      .ok (fallbackParser "model replied in plain prose") :=
  parseAIResponse_array_free_falls_back _ _ (by decide)

/-- Claim C5: for every non-negative integer N, `parseAmount` on the
token made of the decimal digits of N followed by the cents sign
returns exactly N/100, in both the send and the batch entry points. -/
theorem parseAmount_cents_exact :
    ∀ N : ℕ,
      Send.parseAmountL (natDigits N ++ ['¢']) = .ok (.num ⟨(N : ℤ), 100⟩) ∧
      Batch.parseAmountL (natDigits N ++ ['¢']) = .ok (.num ⟨(N : ℤ), 100⟩) ∧
      Q.toRat ⟨(N : ℤ), 100⟩ = (N : ℚ) / 100 := by
  intro N
  obtain ⟨hne, hdig, hval⟩ := natDigits_spec N
  have hnospace : ∀ c ∈ natDigits N ++ ['¢'], isJsSpace c = false := by
    intro c hc
    rcases List.mem_append.mp hc with h | h
    · exact digit_not_space (hdig c h)
    · simp only [List.mem_singleton] at h
      subst h; decide
  have htrim : trimL (natDigits N ++ ['¢']) = natDigits N ++ ['¢'] :=
    trimL_id _ hnospace
  have hlast : (natDigits N ++ ['¢']).getLast? = some '¢' :=
    List.getLast?_concat _
  have hdrop : (natDigits N ++ ['¢']).dropLast = natDigits N :=
    List.dropLast_concat
  have hpf := parseFloatL_all_digits (natDigits N) hne hdig
  refine ⟨?_, ?_, ?_⟩
  · simp [Send.parseAmountL, htrim, hlast, hdrop, hpf, jsDiv100, hval]
  · simp [Batch.parseAmountL, htrim, hlast, hdrop, hpf, jsDiv100, hval]
  · rw [Q.toRat]
    push_cast
    ring

lemma parseFloatL_digits_dot_digits (ip fs : List Char)
    (hip : ∀ c ∈ ip, isDigitChar c = true)
    (hfs : ∀ c ∈ fs, isDigitChar c = true) (hfsne : fs ≠ []) :
    parseFloatL (ip ++ '.' :: fs) =
      .num ⟨((digitsToNat ip * 10 ^ fs.length + digitsToNat fs : ℕ) : ℤ),
        10 ^ fs.length⟩ := by
  obtain ⟨c0, rest, hcons, hc0⟩ :
      ∃ c0 rest, ip ++ '.' :: fs = c0 :: rest ∧
        (isDigitChar c0 = true ∨ c0 = '.') := by
    cases ip with
    | nil => exact ⟨'.', fs, rfl, Or.inr rfl⟩
    | cons a t => exact ⟨a, t ++ '.' :: fs, rfl, Or.inl (hip a (by simp))⟩
  have hc0nat : 46 ≤ c0.toNat ∧ c0.toNat ≤ 57 := by
    rcases hc0 with h | h
    · obtain ⟨h1, h2⟩ := isDigitChar_spec h
      omega
    · subst h; decide
  have hnospace : ∀ c ∈ ip ++ '.' :: fs, isJsSpace c = false := by
    intro c hc
    rcases List.mem_append.mp hc with h | h
    · exact digit_not_space (hip c h)
    · rcases List.mem_cons.mp h with h | h
      · subst h; decide
      · exact digit_not_space (hfs c h)
  have hdw : (ip ++ '.' :: fs).dropWhile isJsSpace = ip ++ '.' :: fs :=
    dropWhile_all_false _ hnospace
  have hminus : ¬ c0 = '-' := ne_of_toNat_ne (by
    have h45 : '-'.toNat = 45 := rfl
    omega)
  have hplus : ¬ c0 = '+' := ne_of_toNat_ne (by
    have h43 : '+'.toNat = 43 := rfl
    omega)
  have hI : ¬ ('I' = c0) := fun he => by
    have h73 : c0.toNat = 73 := by rw [← he]; rfl
    omega
  have hhead : (ip ++ '.' :: fs).head? = some c0 := by rw [hcons]; rfl
  have hneg : (decide ((ip ++ '.' :: fs).head? = some '-')) = false := by
    rw [hhead]
    simp [hminus]
  have hrif : (if (ip ++ '.' :: fs).head? = some '-' ∨
        (ip ++ '.' :: fs).head? = some '+' then
      (ip ++ '.' :: fs).tail else ip ++ '.' :: fs) = ip ++ '.' :: fs := by
    rw [hhead]
    simp [hminus, hplus]
  have hlit : litCS "Infinity".data (ip ++ '.' :: fs) = none := by
    rw [hcons, show "Infinity".data = 'I' :: "nfinity".data from rfl]
    simp [litCS, hI]
  have htw := takeWhile_append_stop ip '.' fs hip (by decide)
  have hfst := takeWhile_all_true fs hfs
  have hfse : ¬ fs.isEmpty = true := by
    cases fs with
    | nil => exact absurd rfl hfsne
    | cons a t => simp
  have hpd : parseDec (ip ++ '.' :: fs) =
      some ⟨((digitsToNat ip * 10 ^ fs.length + digitsToNat fs : ℕ) : ℤ),
        10 ^ fs.length⟩ := by
    simp only [parseDec, htw.1, htw.2, hfst.1, hfst.2, parseExp]
    simp [hfse]
  simp only [parseFloatL, hdw, hneg, hrif, hlit, hpd, Bool.false_eq_true,
    if_false]

/-- Claim C6: in the send entry point, `parseAmount` on a dollar token
with a fractional part returns its exact decimal value, and on a dollar
token that is a bare integer fails with the dedicated shell-hazard
error carrying the integer. -/
theorem parseAmount_dollar_shell_hazard :
    (∀ ip fs : List Char, (∀ c ∈ ip, isDigitChar c = true) →
      (∀ c ∈ fs, isDigitChar c = true) → fs ≠ [] →
      Send.parseAmountL ('$' :: (ip ++ '.' :: fs)) =
        .ok (.num ⟨((digitsToNat ip * 10 ^ fs.length + digitsToNat fs : ℕ) : ℤ),
          10 ^ fs.length⟩) ∧
      Q.toRat ⟨((digitsToNat ip * 10 ^ fs.length + digitsToNat fs : ℕ) : ℤ),
          10 ^ fs.length⟩ =
        (digitsToNat ip : ℚ) + (digitsToNat fs : ℚ) / 10 ^ fs.length) ∧
    (∀ ds : List Char, (∀ c ∈ ds, isDigitChar c = true) → ds ≠ [] →
      Send.parseAmountL ('$' :: ds) = .error (.shellHazard (digitsToNat ds))) := by
  constructor
  · intro ip fs hip hfs hfsne
    have hnospace : ∀ c ∈ '$' :: (ip ++ '.' :: fs), isJsSpace c = false := by
      intro c hc
      rcases List.mem_cons.mp hc with h | h
      · subst h; decide
      · rcases List.mem_append.mp h with h | h
        · exact digit_not_space (hip c h)
        · rcases List.mem_cons.mp h with h | h
          · subst h; decide
          · exact digit_not_space (hfs c h)
    have htrim : trimL ('$' :: (ip ++ '.' :: fs)) = '$' :: (ip ++ '.' :: fs) :=
      trimL_id _ hnospace
    obtain ⟨lc, hlc, hlcm⟩ := exists_getLast? fs hfsne
    have hlcne : ¬ lc = '¢' :=
      ne_of_toNat_ne (digit_toNat_ne (hfs lc hlcm) (by decide))
    have hshape : '$' :: (ip ++ '.' :: fs) = ('$' :: (ip ++ ['.'])) ++ fs := by
      simp
    have hlast : ('$' :: (ip ++ '.' :: fs)).getLast? = some lc := by
      rw [hshape, getLast?_append_right _ hfsne, hlc]
    have hlastne : ¬ (('$' :: (ip ++ '.' :: fs)).getLast? = some '¢') := by
      rw [hlast]
      simp [hlcne]
    have hdot : isDigitChar '.' = false := by decide
    have hall : (ip ++ '.' :: fs).all isDigitChar = false := by
      simp [List.all_append, List.all_cons, hdot]
    have hpf := parseFloatL_digits_dot_digits ip fs hip hfs hfsne
    constructor
    · simp [Send.parseAmountL, htrim, hlastne, hall, hpf]
    · rw [Q.toRat]
      have h10 : ((10 : ℚ) ^ fs.length) ≠ 0 := by positivity
      push_cast
      field_simp
  · intro ds hds hdsne
    have hnospace : ∀ c ∈ '$' :: ds, isJsSpace c = false := by
      intro c hc
      rcases List.mem_cons.mp hc with h | h
      · subst h; decide
      · exact digit_not_space (hds c h)
    have htrim : trimL ('$' :: ds) = '$' :: ds := trimL_id _ hnospace
    obtain ⟨lc, hlc, hlcm⟩ := exists_getLast? ds hdsne
    have hlcne : ¬ lc = '¢' :=
      ne_of_toNat_ne (digit_toNat_ne (hds lc hlcm) (by decide))
    have hlast : ('$' :: ds).getLast? = some lc := by
      rw [show ('$' :: ds) = ['$'] ++ ds from rfl,
        getLast?_append_right _ hdsne, hlc]
    have hlastne : ¬ (('$' :: ds).getLast? = some '¢') := by
      rw [hlast]
      simp [hlcne]
    have hdse : ¬ ds.isEmpty = true := by
      cases ds with
      | nil => exact absurd rfl hdsne
      | cons a t => simp
    have hall : ds.all isDigitChar = true := List.all_eq_true.mpr hds
    simp [Send.parseAmountL, htrim, hlastne, hdse, hall]

/-- Witness for C6 at the tokens `$0.5` (fractional, accepted as 0.5)
and `$1` (bare integer, rejected with the shell-hazard error). -/
theorem parseAmount_dollar_witness :
    Send.parseAmountL "$0.5".data = .ok (.num ⟨5, 10⟩) ∧
    Send.parseAmountL "$1".data = .error (.shellHazard 1) := by
  constructor
  · have h := (parseAmount_dollar_shell_hazard.1 ['0'] ['5']
      (by decide) (by decide) (by simp)).1
    simpa using h
  · have h := parseAmount_dollar_shell_hazard.2 ['1'] (by decide) (by simp)
    simpa using h

lemma toRat_nonneg {q : Q} (h : 0 ≤ q.n) : 0 ≤ q.toRat := by
  rw [Q.toRat]
  have h1 : (0 : ℚ) ≤ (q.n : ℚ) := by exact_mod_cast h
  have h2 : (0 : ℚ) ≤ (q.d : ℚ) := by positivity
  exact div_nonneg h1 h2

lemma mem_dropLast {c : Char} {l : List Char} (h : c ∈ l.dropLast) : c ∈ l :=
  (List.dropLast_sublist (l := l)).mem h

/-- Counterexample to claim C2 as stated: the plain-decimal notation
accepts a leading minus sign, so `parseAmount` can return a negative
amount. -/
theorem parseAmount_negative_counterexample :
    Send.parseAmount "-5" = .ok (.num ⟨-5, 1⟩) ∧ Q.toRat ⟨-5, 1⟩ < 0 := by
  refine ⟨by decide, ?_⟩
  norm_num [Q.toRat]

/-- Claim C2, amended: for every amount token containing no minus sign
that `parseAmount` accepts with a finite value, in either entry point,
the returned amount is non-negative. -/
theorem parseAmount_nonneg_without_minus :
    (∀ (l : List Char) (q : Q), '-' ∉ l →
      Send.parseAmountL l = .ok (.num q) → 0 ≤ q.toRat) ∧
    (∀ (l : List Char) (q : Q), '-' ∉ l →
      Batch.parseAmountL l = .ok (.num q) → 0 ≤ q.toRat) := by
  constructor
  · intro l q hm h
    simp only [Send.parseAmountL] at h
    split at h
    · split at h
      · exact absurd h (by simp)
      · rename_i hn
        simp only [Except.ok.injEq] at h
        have hm' : '-' ∉ (trimL l).dropLast :=
          fun hc => hm (mem_trimL (mem_dropLast hc))
        rcases parseFloatL_no_minus hm' with h1 | h1 | ⟨q0, h1, h1n⟩
        · exact absurd h1 hn
        · rw [h1] at h
          simp [jsDiv100] at h
        · rw [h1] at h
          simp only [jsDiv100, JSNum.num.injEq] at h
          rw [← h]
          exact toRat_nonneg h1n
    · split at h
      · split at h
        · exact absurd h (by simp)
        · split at h
          · exact absurd h (by simp)
          · rename_i hn
            simp only [Except.ok.injEq] at h
            have hm' : '-' ∉ (trimL l).tail := fun hc =>
              hm (mem_trimL ((List.tail_sublist (trimL l)).mem hc))
            rcases parseFloatL_no_minus hm' with h1 | h1 | ⟨q0, h1, h1n⟩
            · exact absurd h1 hn
            · rw [h1] at h
              simp at h
            · rw [h1] at h
              simp only [JSNum.num.injEq] at h
              rw [← h]
              exact toRat_nonneg h1n
      · split at h
        · exact absurd h (by simp)
        · rename_i hn
          simp only [Except.ok.injEq] at h
          have hm' : '-' ∉ trimL l := fun hc => hm (mem_trimL hc)
          rcases parseFloatL_no_minus hm' with h1 | h1 | ⟨q0, h1, h1n⟩
          · exact absurd h1 hn
          · rw [h1] at h
            simp at h
          · rw [h1] at h
            simp only [JSNum.num.injEq] at h
            rw [← h]
            exact toRat_nonneg h1n
  · intro l q hm h
    simp only [Batch.parseAmountL] at h
    split at h
    · split at h
      · exact absurd h (by simp)
      · rename_i hn
        simp only [Except.ok.injEq] at h
        have hm' : '-' ∉ (trimL l).dropLast :=
          fun hc => hm (mem_trimL (mem_dropLast hc))
        rcases parseFloatL_no_minus hm' with h1 | h1 | ⟨q0, h1, h1n⟩
        · exact absurd h1 hn
        · rw [h1] at h
          simp [jsDiv100] at h
        · rw [h1] at h
          simp only [jsDiv100, JSNum.num.injEq] at h
          rw [← h]
          exact toRat_nonneg h1n
    · split at h
      · split at h
        · exact absurd h (by simp)
        · rename_i hn
          simp only [Except.ok.injEq] at h
          have hm' : '-' ∉ (trimL l).tail := fun hc =>
            hm (mem_trimL ((List.tail_sublist (trimL l)).mem hc))
          rcases parseFloatL_no_minus hm' with h1 | h1 | ⟨q0, h1, h1n⟩
          · exact absurd h1 hn
          · rw [h1] at h
            simp at h
          · rw [h1] at h
            simp only [JSNum.num.injEq] at h
            rw [← h]
            exact toRat_nonneg h1n
      · split at h
        · exact absurd h (by simp)
        · rename_i hn
          simp only [Except.ok.injEq] at h
          have hm' : '-' ∉ trimL l := fun hc => hm (mem_trimL hc)
          rcases parseFloatL_no_minus hm' with h1 | h1 | ⟨q0, h1, h1n⟩
          · exact absurd h1 hn
          · rw [h1] at h
            simp at h
          · rw [h1] at h
            simp only [JSNum.num.injEq] at h
            rw [← h]
            exact toRat_nonneg h1n

/-- Witness for the amended C2: the minus-free token `5` is accepted
with a non-negative value. -/
theorem parseAmount_nonneg_witness : (0 : ℚ) ≤ Q.toRat ⟨5, 1⟩ :=
  parseAmount_nonneg_without_minus.1 "5".data ⟨5, 1⟩ (by decide) (by decide)

/-- Counterexample to claim C3 as stated: the token `Infinity` has a
non-finite numeric interpretation, yet `parseAmount` returns +Infinity
instead of failing — the code only checks `isNaN`, not finiteness. -/
theorem parseAmount_infinity_counterexample :
    Send.parseAmount "Infinity" = .ok .inf ∧
    Batch.parseAmount (.str "Infinity") = .ok .inf := by
  decide

/-- Claim C3, amended: `parseAmount` never returns NaN, and whenever
the numeric interpretation in the branch handling the token is NaN it
fails with that branch's invalid-amount error naming the raw token;
tokens parsing to ±Infinity are returned as-is. -/
theorem parseAmount_nan_always_rejected :
    (∀ l : List Char, ¬ Send.parseAmountL l = .ok .nan) ∧
    (∀ l : List Char, ¬ Batch.parseAmountL l = .ok .nan) ∧
    (∀ l : List Char, sendBranchVal l = .nan →
      Send.parseAmountL l = .error (.invalidCents ⟨l⟩) ∨
      Send.parseAmountL l = .error (.invalidDollar ⟨l⟩) ∨
      Send.parseAmountL l = .error (.invalidAmount ⟨l⟩)) := by
  refine ⟨?_, ?_, ?_⟩
  · intro l h
    simp only [Send.parseAmountL] at h
    split at h
    · split at h
      · exact absurd h (by simp)
      · rename_i hn
        simp only [Except.ok.injEq] at h
        cases hv : parseFloatL (trimL l).dropLast with
        | num q0 => rw [hv] at h; simp [jsDiv100] at h
        | nan => exact hn hv
        | inf => rw [hv] at h; simp [jsDiv100] at h
        | negInf => rw [hv] at h; simp [jsDiv100] at h
    · split at h
      · split at h
        · exact absurd h (by simp)
        · split at h
          · exact absurd h (by simp)
          · rename_i hn
            simp only [Except.ok.injEq] at h
            exact hn h
      · split at h
        · exact absurd h (by simp)
        · rename_i hn
          simp only [Except.ok.injEq] at h
          exact hn h
  · intro l h
    simp only [Batch.parseAmountL] at h
    split at h
    · split at h
      · exact absurd h (by simp)
      · rename_i hn
        simp only [Except.ok.injEq] at h
        cases hv : parseFloatL (trimL l).dropLast with
        | num q0 => rw [hv] at h; simp [jsDiv100] at h
        | nan => exact hn hv
        | inf => rw [hv] at h; simp [jsDiv100] at h
        | negInf => rw [hv] at h; simp [jsDiv100] at h
    · split at h
      · split at h
        · exact absurd h (by simp)
        · rename_i hn
          simp only [Except.ok.injEq] at h
          exact hn h
      · split at h
        · exact absurd h (by simp)
        · rename_i hn
          simp only [Except.ok.injEq] at h
          exact hn h
  · intro l h
    simp only [sendBranchVal] at h
    simp only [Send.parseAmountL]
    by_cases h1 : (trimL l).getLast? = some '¢'
    · rw [if_pos h1] at h
      rw [if_pos h1, if_pos h]
      left
      rfl
    · rw [if_neg h1] at h
      rw [if_neg h1]
      by_cases h2 : (trimL l).head? = some '$'
      · rw [if_pos h2] at h
        rw [if_pos h2]
        split
        · rename_i hsh
          have hsh2 : ¬ (trimL l).tail.isEmpty = true ∧
              (trimL l).tail.all isDigitChar = true := by simpa using hsh
          have hrne : (trimL l).tail ≠ [] := by
            intro hnil
            rw [hnil] at hsh2
            exact hsh2.1 rfl
          have hnum := parseFloatL_all_digits _ hrne
            (List.all_eq_true.mp hsh2.2)
          rw [hnum] at h
          exact absurd h (by simp)
        · simp only [if_pos h]
          right
          left
          trivial
      · rw [if_neg h2] at h
        rw [if_neg h2, if_pos h]
        right
        right
        rfl

/-- Witness for the amended C3: the token `abc` has a NaN numeric
interpretation and is rejected with an error naming it. -/
theorem parseAmount_nan_witness :
    Send.parseAmountL "abc".data = .error (.invalidCents "abc") ∨
    Send.parseAmountL "abc".data = .error (.invalidDollar "abc") ∨
    Send.parseAmountL "abc".data = .error (.invalidAmount "abc") :=
  parseAmount_nan_always_rejected.2.2 "abc".data (by decide)

lemma platformErrs_eq_nil (f : JField) :
    platformErrs f = [] ↔ (f = .jstr "x" ∨ f = .jstr "farcaster") := by
  cases f with
  | absent => simp [platformErrs]
  | jstr s =>
    simp only [platformErrs, JField.jstr.injEq]
    split_ifs with hz hm
    · constructor
      · intro hh
        exact absurd hh (by simp)
      · rintro (rfl | rfl) <;> exact absurd hz (by decide)
    · simp [hm]
    · constructor
      · intro hh
        exact absurd hh (by simp)
      · intro hh
        exact absurd hh hm
  | jnum q =>
    simp only [platformErrs]
    split_ifs <;> simp
  | jbool b => cases b <;> simp [platformErrs]

lemma nameErrs_eq_nil (f : JField) :
    nameErrs f = [] ↔ ∃ s, f = .jstr s ∧ 3 ≤ s.length ∧ s.length ≤ 100 := by
  cases f with
  | absent => simp [nameErrs]
  | jstr s =>
    constructor
    · intro hh
      simp only [nameErrs] at hh
      split_ifs at hh
      all_goals simp at hh
      all_goals refine ⟨s, rfl, ?_, ?_⟩ <;> omega
    · rintro ⟨s', hs', hl, hr⟩
      injection hs' with he
      subst he
      simp only [nameErrs]
      split_ifs <;>
        first
          | rfl
          | (exfalso; omega)
  | jnum q =>
    simp only [nameErrs]
    split_ifs <;> simp
  | jbool b => cases b <;> simp [nameErrs]

lemma descriptionErrs_eq_nil (f : JField) :
    descriptionErrs f = [] ↔ ∃ s, f = .jstr s ∧ 10 ≤ s.length ∧ s.length ≤ 500 := by
  cases f with
  | absent => simp [descriptionErrs]
  | jstr s =>
    constructor
    · intro hh
      simp only [descriptionErrs] at hh
      split_ifs at hh
      all_goals simp at hh
      all_goals refine ⟨s, rfl, ?_, ?_⟩ <;> omega
    · rintro ⟨s', hs', hl, hr⟩
      injection hs' with he
      subst he
      simp only [descriptionErrs]
      split_ifs <;>
        first
          | rfl
          | (exfalso; omega)
  | jnum q =>
    simp only [descriptionErrs]
    split_ifs <;> simp
  | jbool b => cases b <;> simp [descriptionErrs]

lemma cookieErrs_eq_nil (f : JField) :
    cookieErrs f = [] ↔
      ∃ q : ℚ, f = .jnum q ∧ q.den = 1 ∧ 3 ≤ q ∧ q ≤ 10 := by
  cases f with
  | absent => simp [cookieErrs]
  | jstr s => simp [cookieErrs]
  | jbool b => simp [cookieErrs]
  | jnum q =>
    constructor
    · intro hh
      simp only [cookieErrs] at hh
      split_ifs at hh
      all_goals simp at hh
      all_goals refine ⟨q, rfl, ?_, ?_, ?_⟩ <;> first | tauto | linarith
    · rintro ⟨q', hq', hden, h3le, h10⟩
      injection hq' with he
      subst he
      simp only [cookieErrs]
      split_ifs <;>
        first
          | rfl
          | (exfalso; tauto)
          | (exfalso; linarith)

lemma sponsorNameErrs_eq_nil (f : JField) :
    sponsorNameErrs f = [] ↔ ∃ s, f = .jstr s ∧ 1 ≤ s.length ∧ s.length ≤ 100 := by
  cases f with
  | absent => simp [sponsorNameErrs]
  | jstr s =>
    constructor
    · intro hh
      simp only [sponsorNameErrs] at hh
      split_ifs at hh
      all_goals simp at hh
      all_goals refine ⟨s, rfl, ?_, ?_⟩ <;> omega
    · rintro ⟨s', hs', hl, hr⟩
      injection hs' with he
      subst he
      simp only [sponsorNameErrs]
      split_ifs <;>
        first
          | rfl
          | (exfalso; omega)
  | jnum q =>
    simp only [sponsorNameErrs]
    split_ifs <;> simp
  | jbool b => cases b <;> simp [sponsorNameErrs]

lemma sponsorHandleErrs_eq_nil (f : JField) :
    sponsorHandleErrs f = [] ↔ ∃ s, f = .jstr s ∧ 1 ≤ s.length ∧ s.length ≤ 50 := by
  cases f with
  | absent => simp [sponsorHandleErrs]
  | jstr s =>
    constructor
    · intro hh
      simp only [sponsorHandleErrs] at hh
      split_ifs at hh
      all_goals simp at hh
      all_goals refine ⟨s, rfl, ?_, ?_⟩ <;> omega
    · rintro ⟨s', hs', hl, hr⟩
      injection hs' with he
      subst he
      simp only [sponsorHandleErrs]
      split_ifs <;>
        first
          | rfl
          | (exfalso; omega)
  | jnum q =>
    simp only [sponsorHandleErrs]
    split_ifs <;> simp
  | jbool b => cases b <;> simp [sponsorHandleErrs]

lemma sponsorUrlErrs_eq_nil (urlOk : String → Bool) (f : JField) :
    sponsorUrlErrs urlOk f = [] ↔
      (f = .absent ∨ ∃ s, f = .jstr s ∧ urlOk s = true) := by
  cases f with
  | absent => simp [sponsorUrlErrs]
  | jstr s =>
    simp only [sponsorUrlErrs]
    split_ifs with h
    · simp [h]
    · simp [h]
  | jnum q => simp [sponsorUrlErrs]
  | jbool b => simp [sponsorUrlErrs]

lemma sponsorErrs_eq_nil (urlOk : String → Bool) (o : Option RawSponsor) :
    sponsorErrs urlOk o = [] ↔ ∃ sp, o = some sp ∧
      (∃ s, sp.name = .jstr s ∧ 1 ≤ s.length ∧ s.length ≤ 100) ∧
      (∃ s, sp.handle = .jstr s ∧ 1 ≤ s.length ∧ s.length ≤ 50) ∧
      (sp.url = .absent ∨ ∃ s, sp.url = .jstr s ∧ urlOk s = true) := by
  cases o with
  | none => simp [sponsorErrs]
  | some sp =>
    simp only [sponsorErrs, List.append_eq_nil, Option.some.injEq]
    rw [sponsorNameErrs_eq_nil, sponsorHandleErrs_eq_nil, sponsorUrlErrs_eq_nil]
    constructor
    · rintro ⟨⟨hn, hh⟩, hu⟩
      exact ⟨sp, rfl, hn, hh, hu⟩
    · rintro ⟨sp', heq, hn, hh, hu⟩
      subst heq
      exact ⟨⟨hn, hh⟩, hu⟩

lemma validateCampaignData_ok_iff (urlOk : String → Bool) (d : RawCampaign) :
    exceptOk (validateCampaignData urlOk d) = true ↔
      campaignErrors urlOk d = [] := by
  unfold validateCampaignData
  split_ifs with h
  · constructor
    · intro _
      exact List.isEmpty_iff.mp h
    · intro _
      rfl
  · constructor
    · intro hh
      simp [exceptOk] at hh
    · intro hh
      exfalso
      rw [hh] at h
      exact h rfl

/-- Claim C7: campaign validation is aggregate — it succeeds exactly
when every field satisfies its spec bound, and the sample input with a
too-short name and too few cookies fails with one error reporting both
violations. -/
theorem campaign_validation_aggregate :
    (∀ (urlOk : String → Bool) (d : RawCampaign),
      exceptOk (validateCampaignData urlOk d) = true ↔ ValidCampaign urlOk d) ∧
    (∀ urlOk : String → Bool,
      validateCampaignData urlOk
        ⟨.jstr "x", .jstr "ab", .jstr "cookies for everyone", .jnum 2,
          some ⟨.jstr "Acme", .jstr "acme", .absent⟩⟩ =
      .error [.nameTooShort, .cookiesTooFew]) := by
  constructor
  · intro urlOk d
    rw [validateCampaignData_ok_iff]
    unfold campaignErrors ValidCampaign
    simp only [List.append_eq_nil]
    rw [platformErrs_eq_nil, nameErrs_eq_nil, descriptionErrs_eq_nil,
      cookieErrs_eq_nil, sponsorErrs_eq_nil]
    simp [and_assoc]
  · intro urlOk
    rfl

/-- Witness for C7: a campaign object meeting every bound validates. -/
theorem campaign_validation_witness :
    exceptOk (validateCampaignData (fun _ => false)
      ⟨.jstr "x", .jstr "abc", .jstr "cookies for everyone", .jnum 5,
        some ⟨.jstr "Acme", .jstr "acme", .absent⟩⟩) = true :=
  (campaign_validation_aggregate.1 _ _).mpr
    ⟨Or.inl rfl,
     ⟨"abc", rfl, by decide, by decide⟩,
     ⟨"cookies for everyone", rfl, by decide, by decide⟩,
     ⟨5, rfl, by decide, by decide, by decide⟩,
     ⟨⟨.jstr "Acme", .jstr "acme", .absent⟩, rfl,
      ⟨"Acme", rfl, by decide, by decide⟩,
      ⟨"acme", rfl, by decide, by decide⟩,
      Or.inl rfl⟩⟩
